import Mathlib

/-! Shallow embedding of the AgentChain blockchain core
(StateManager.ts, Block.ts, Chain.ts, Transaction.ts under
src/backend/src/blockchain/core), together with proofs about the
account state store, the transaction pool, the chain query layer and the
PoSA consensus round state machine.

Conventions used throughout:
* TypeScript `bigint` values are embedded as `Int` (arbitrary precision,
  signed); JavaScript array lengths and indices as `Nat`.
* A JavaScript `Map` is embedded as an association list kept in insertion
  order: `set` replaces the value of an existing key in place and appends
  an unknown key at the end, exactly like `Map.prototype.set`; `delete`
  removes the entry; `get` returns the entry's value.
* Code that can throw is embedded with `Except`; a thrown `TypeError`
  becomes an `Except.error`.
* `Array.prototype.sort` with a comparator is a stable sort and is
  embedded with `List.insertionSort`, which is also stable.
* `localeCompare` on the lower-case hexadecimal address strings used as
  account keys coincides with the codepoint order of Lean's `String`
  order, since the characters involved are ASCII digits and lower-case
  letters. -/

/-! ## JavaScript Map embedding -/

def jsMapGet {κ α : Type} [DecidableEq κ] : List (κ × α) → κ → Option α
  | [], _ => none
  | (k', v) :: t, k => if k' = k then some v else jsMapGet t k

def jsMapSet {κ α : Type} [DecidableEq κ] : List (κ × α) → κ → α → List (κ × α)
  | [], k, v => [(k, v)]
  | (k', v') :: t, k, v => if k' = k then (k, v) :: t else (k', v') :: jsMapSet t k v

def jsMapDelete {κ α : Type} [DecidableEq κ] : List (κ × α) → κ → List (κ × α)
  | [], _ => []
  | (k', v') :: t, k => if k' = k then t else (k', v') :: jsMapDelete t k

/-- The embedding of JavaScript `toLowerCase`: lower-case each character.
Defined through the character list (rather than `String.map`) so that its
idempotence — the source lower-cases some addresses twice — is provable. -/
def jsToLower (s : String) : String := String.mk (s.data.map Char.toLower)

/-! ## Transaction (Transaction.ts)

The `Transaction` entity of `Transaction.ts` stores `nonce`, `gasPrice`,
`gasLimit`, `to` (null for contract creation), `value`, `data`, the
signature components `v`, `r`, `s` and a content `hash` computed in the
constructor; the hash is embedded as an opaque digest field.  The state
manager and the transaction pool additionally read `transaction.from`
(the sender address); it is embedded as the field `sender`. -/

structure Transaction where
  nonce : Int
  gasPrice : Int
  gasLimit : Int
  to_ : Option String
  value : Int
  data : String
  v : Int
  r : String
  s : String
  hash : String
  sender : String
deriving DecidableEq

def isHexDigitChar (c : Char) : Bool :=
  c.isDigit || ('a' ≤ c && c ≤ 'f') || ('A' ≤ c && c ≤ 'F')

/-- `Transaction.isValidAddress`: the regular expression
test `0x` followed by exactly 40 hexadecimal characters. -/
def Transaction.isValidAddress (address : String) : Bool :=
  address.length == 42 && address.startsWith "0x" && ((address.drop 2).all isHexDigitChar)

/-- `Transaction.validate`: numeric sanity checks, signature components
present (the empty string is falsy), `data` either empty or `0x`-prefixed,
and — when a non-empty recipient is present — a well-formed address. -/
def Transaction.validate (tx : Transaction) : Bool :=
  if tx.gasLimit ≤ 0 ∨ tx.gasPrice < 0 ∨ tx.value < 0 ∨ tx.nonce < 0 then false
  else if tx.r = "" ∨ tx.s = "" ∨ tx.v < 0 then false
  else if tx.data ≠ "" ∧ ¬ tx.data.startsWith "0x" then false
  else
    match tx.to_ with
    | some t => if t ≠ "" ∧ ¬ Transaction.isValidAddress t then false else true
    | none => true

/-- `Transaction.isContractCreation`: `this.to === null || this.to === ''`. -/
def Transaction.isContractCreation (tx : Transaction) : Bool :=
  match tx.to_ with
  | none => true
  | some t => t = ""

/-! ## StateManager (StateManager.ts) -/

structure AccountState where
  balance : Int
  nonce : Int
deriving DecidableEq

structure StateManager where
  accounts : List (String × AccountState)
  currentStateRoot : String
deriving DecidableEq

/-- JavaScript `ToInt32`: the `<< 5` and `& hash` steps of `simpleHash`
operate on 32-bit two's-complement integers. -/
def toInt32 (x : Int) : Int := (x + 2 ^ 31) % 2 ^ 32 - 2 ^ 31

/-- One step of `simpleHash`: `hash = ((hash << 5) - hash) + char` followed
by `hash = hash & hash` (conversion back to a 32-bit integer).  The
intermediate sum stays far below 2^53, so the JavaScript float arithmetic
in between is exact. -/
def simpleHashStep (hash : Int) (c : Char) : Int :=
  toInt32 (toInt32 (hash * 32) - hash + c.toNat)

def padStart (s : String) (len : Nat) (c : Char) : String :=
  String.mk (List.replicate (len - s.length) c) ++ s

/-- `StateManager.simpleHash`: fold the character codes, then render the
absolute value in lower-case hexadecimal padded to 64 characters. -/
def StateManager.simpleHash (data : String) : String :=
  let h := data.data.foldl simpleHashStep 0
  padStart (String.mk (Nat.toDigits 16 h.natAbs)) 64 '0'

/-- The comparator of `updateStateRoot`: sort account entries by address. -/
def keyLE (a b : String × AccountState) : Prop := a.1 ≤ b.1

instance : DecidableRel keyLE := fun a b => inferInstanceAs (Decidable (a.1 ≤ b.1))

instance : IsTotal (String × AccountState) keyLE := ⟨fun a b => le_total a.1 b.1⟩

instance : IsTrans (String × AccountState) keyLE := ⟨fun _ _ _ h1 h2 => le_trans h1 h2⟩

/-- The strict version of `keyLE`, used to show that a sorted account list
with distinct addresses is unique. -/
def keyLT (a b : String × AccountState) : Prop := a.1 < b.1

instance : IsAntisymm (String × AccountState) keyLT :=
  ⟨fun _ _ h1 h2 => absurd h2 (lt_asymm h1)⟩

def accountEntryString (e : String × AccountState) : String :=
  e.1 ++ ":" ++ toString e.2.balance ++ ":" ++ toString e.2.nonce

/-- The digest computed by `StateManager.updateStateRoot`: serialize the
account entries sorted by address and hash the result. -/
def computeStateRoot (accounts : List (String × AccountState)) : String :=
  "0x" ++ StateManager.simpleHash
    (String.intercalate "|" ((List.insertionSort keyLE accounts).map accountEntryString))

def StateManager.updateStateRoot (st : StateManager) : StateManager :=
  { st with currentStateRoot := computeStateRoot st.accounts }

def genesisAccounts : List (String × AccountState) :=
  [("0x1234567890123456789012345678901234567890", ⟨1000000000000000000000000000, 0⟩),
   ("0x2345678901234567890123456789012345678901", ⟨500000000000000000000000000, 0⟩),
   ("0x3456789012345678901234567890123456789012", ⟨100000000000000000000000000, 0⟩)]

def StateManager.initializeGenesisState (st : StateManager) : StateManager :=
  { st with accounts := genesisAccounts.foldl (fun acc e => jsMapSet acc (jsToLower e.1) e.2) st.accounts }

/-- The `StateManager` constructor: genesis accounts, empty state root. -/
def StateManager.create : StateManager :=
  StateManager.initializeGenesisState { accounts := [], currentStateRoot := "" }

/-- `StateManager.initialize` (renamed `initializeManager` here): re-runs the
genesis initialization and recomputes the state root. -/
def StateManager.initializeManager (st : StateManager) : StateManager :=
  st.initializeGenesisState.updateStateRoot

def StateManager.getBalance (st : StateManager) (address : String) : Int :=
  match jsMapGet st.accounts (jsToLower address) with
  | some account => account.balance
  | none => 0

def StateManager.getNonce (st : StateManager) (address : String) : Int :=
  match jsMapGet st.accounts (jsToLower address) with
  | some account => account.nonce
  | none => 0

def StateManager.setBalance (st : StateManager) (address : String) (balance : Int) : StateManager :=
  let normalizedAddress := jsToLower address
  let account := (jsMapGet st.accounts normalizedAddress).getD ⟨0, 0⟩
  StateManager.updateStateRoot
    { st with accounts := jsMapSet st.accounts normalizedAddress { account with balance := balance } }

def StateManager.incrementNonce (st : StateManager) (address : String) : StateManager :=
  let normalizedAddress := jsToLower address
  let account := (jsMapGet st.accounts normalizedAddress).getD ⟨0, 0⟩
  StateManager.updateStateRoot
    { st with accounts := jsMapSet st.accounts normalizedAddress { account with nonce := account.nonce + 1 } }

/-- `StateManager.transfer`.  In the source, `fromAccount` and `toAccount`
are references into the map; when both addresses coincide the two names
alias one object, so the debit is visible to the credit.  The functional
rendering therefore debits first and reads the recipient from the debited
map, which agrees with the aliasing semantics in every case. -/
def StateManager.transfer (st : StateManager) (fromAddr toAddr : String) (amount : Int) :
    Bool × StateManager :=
  let fromAddress := jsToLower fromAddr
  let toAddress := jsToLower toAddr
  match jsMapGet st.accounts fromAddress with
  | none => (false, st)
  | some fromAccount =>
    if fromAccount.balance < amount then (false, st)
    else
      let debited := jsMapSet st.accounts fromAddress
        { fromAccount with balance := fromAccount.balance - amount }
      let toAccount := (jsMapGet debited toAddress).getD ⟨0, 0⟩
      let credited := jsMapSet debited toAddress
        { toAccount with balance := toAccount.balance + amount }
      (true, StateManager.updateStateRoot { st with accounts := credited })

/-- `StateManager.processTransaction`: reject when the sender account is
missing, the nonce differs, or the balance is below `value + gas cost`;
run the value transfer only when a truthy (non-null, non-empty) recipient
exists and `value > 0`; then deduct the gas cost from the sender, increment
its nonce and recompute the state root. -/
def StateManager.processTransaction (st : StateManager) (transaction : Transaction) :
    Bool × StateManager :=
  let fromA := jsToLower transaction.sender
  let toL := transaction.to_.map jsToLower
  match jsMapGet st.accounts fromA with
  | none => (false, st)
  | some fromAccount =>
    if fromAccount.nonce ≠ transaction.nonce then (false, st)
    else
      let gasCost := transaction.gasPrice * transaction.gasLimit
      let totalCost := transaction.value + gasCost
      if fromAccount.balance < totalCost then (false, st)
      else
        let step : Bool × StateManager :=
          match toL with
          | some t =>
            if t ≠ "" ∧ 0 < transaction.value then StateManager.transfer st fromA t transaction.value
            else (true, st)
          | none => (true, st)
        match step with
        | (false, st') => (false, st')
        | (true, st') =>
          let acc := (jsMapGet st'.accounts fromA).getD fromAccount
          let final := jsMapSet st'.accounts fromA ⟨acc.balance - gasCost, acc.nonce + 1⟩
          (true, StateManager.updateStateRoot { st' with accounts := final })

/-- The public mutators of the account state store, as a mutation
language for stating insertion-order independence of the state root. -/
inductive StateMut where
  | setBalance (address : String) (balance : Int)
  | incrementNonce (address : String)
  | transfer (fromAddr toAddr : String) (amount : Int)
  | processTransaction (tx : Transaction)

def applyMut (st : StateManager) : StateMut → StateManager
  | .setBalance a b => st.setBalance a b
  | .incrementNonce a => st.incrementNonce a
  | .transfer f t amt => (st.transfer f t amt).2
  | .processTransaction tx => (st.processTransaction tx).2

def applyMuts (st : StateManager) (ms : List StateMut) : StateManager :=
  ms.foldl applyMut st

/-- A freshly constructed and initialized state manager. -/
def initialState : StateManager := StateManager.create.initializeManager

/-! ## TransactionPool (Block.ts)

The pool keys pending transactions by hash in a JavaScript `Map`.  The
comparator reads the gas prices through `parseFloat`, which is exact for
the magnitudes the pool handles (below 2^53) and therefore embeds as the
`Int` comparison; `Array.prototype.sort` is stable.  The eviction count
`Math.floor(length * 0.1)` equals `length / 10` (natural division) at
every length the pool can reach (the pool never grows past
`MAX_POOL_SIZE = 10000`, and the float product rounds below the next
integer for all such lengths). -/

structure TransactionPool where
  pendingTransactions : List (String × Transaction)
deriving DecidableEq

def TransactionPool.MAX_POOL_SIZE : Nat := 10000

/-- The ascending-gas-price comparator of `evictLowestFeeTransactions`. -/
def feeLE (a b : String × Transaction) : Prop := a.2.gasPrice ≤ b.2.gasPrice

instance : DecidableRel feeLE := fun a b => inferInstanceAs (Decidable (a.2.gasPrice ≤ b.2.gasPrice))

instance : IsTotal (String × Transaction) feeLE := ⟨fun a b => le_total a.2.gasPrice b.2.gasPrice⟩

instance : IsTrans (String × Transaction) feeLE := ⟨fun _ _ _ h1 h2 => le_trans h1 h2⟩

/-- `TransactionPool.evictLowestFeeTransactions`: stable-sort the entries by
ascending gas price and delete the bottom 10 percent from the pool. -/
def TransactionPool.evictLowestFeeTransactions (pool : TransactionPool) : TransactionPool :=
  let transactions := pool.pendingTransactions
  let sorted := List.insertionSort feeLE transactions
  let removeCount := transactions.length / 10
  (sorted.take removeCount).foldl
    (fun p e => { pendingTransactions := jsMapDelete p.pendingTransactions e.1 }) pool

def TransactionPool.getSize (pool : TransactionPool) : Nat :=
  pool.pendingTransactions.length

def TransactionPool.hasTransaction (pool : TransactionPool) (hash : String) : Bool :=
  (jsMapGet pool.pendingTransactions hash).isSome

/-- `TransactionPool.addTransaction`, with the pool bound
`MAX_POOL_SIZE` made an explicit argument: reject invalid transactions and
duplicate hashes; when the pool is at (or past) the bound, evict the
lowest-fee 10 percent; then insert the new transaction. -/
def TransactionPool.addTransactionWithMax (maxPoolSize : Nat) (pool : TransactionPool)
    (transaction : Transaction) : Bool × TransactionPool :=
  if ¬ transaction.validate then (false, pool)
  else if (jsMapGet pool.pendingTransactions transaction.hash).isSome then (false, pool)
  else
    let pool := if maxPoolSize ≤ pool.pendingTransactions.length
                then pool.evictLowestFeeTransactions else pool
    (true, { pendingTransactions := jsMapSet pool.pendingTransactions transaction.hash transaction })

def TransactionPool.addTransaction : TransactionPool → Transaction → Bool × TransactionPool :=
  TransactionPool.addTransactionWithMax TransactionPool.MAX_POOL_SIZE

def TransactionPool.removeTransaction (pool : TransactionPool) (hash : String) : TransactionPool :=
  { pendingTransactions := jsMapDelete pool.pendingTransactions hash }

/-- `TransactionPool.getTransactionsByAddress`: pending transactions whose
sender — or truthy (non-null, non-empty) recipient — matches the address. -/
def TransactionPool.getTransactionsByAddress (pool : TransactionPool) (address : String) :
    List Transaction :=
  (pool.pendingTransactions.filter (fun e =>
    jsToLower e.2.sender == jsToLower address ||
      (match e.2.to_ with
       | some t => t != "" && jsToLower t == jsToLower address
       | none => false))).map Prod.snd

/-- `TransactionPool.getPendingNonce`: zero for an address with no matching
pending transactions, otherwise the maximum matching nonce (floored at
zero by the fold's initial accumulator) plus one. -/
def TransactionPool.getPendingNonce (pool : TransactionPool) (address : String) : Int :=
  let transactions := pool.getTransactionsByAddress address
  if transactions.length = 0 then 0
  else
    let maxNonce := transactions.foldl (fun mx tx => if mx < tx.nonce then tx.nonce else mx) 0
    maxNonce + 1

/-! ## PoSA consensus (Chain.ts, class PoSAConsensus)

The consensus coordinator owns at most one round; `proposeBlock` arms a
timeout timer with `setTimeout` and never stores or cancels the handle, so
the embedding carries the armed timers in the state (each tagged with the
block hash of the proposal that armed it, and with its absolute firing
time).  `finalizeRound` does not cancel any timer, mirroring the absence
of `clearTimeout` in the source. -/

inductive VoteKind where
  | approve
  | reject
deriving DecidableEq

structure ConsensusVote where
  blockHash : String
  validator : String
  vote : VoteKind
  reasoning : String
  timestamp : Nat
  signature : String
deriving DecidableEq

inductive RoundStatus where
  | pending
  | approved
  | rejected
  | timeout
deriving DecidableEq

structure ConsensusRound where
  blockHash : String
  proposer : String
  startTime : Nat
  votes : List ConsensusVote
  status : RoundStatus
  finalizedAt : Option Nat
deriving DecidableEq

structure PoSAConfig where
  validatorCount : Nat
  requiredVotes : Nat
  roundTimeout : Nat
  blockTime : Nat
deriving DecidableEq

structure ArmedTimer where
  origin : String
  fireTime : Nat
deriving DecidableEq

structure PoSAState where
  currentRound : Option ConsensusRound
  consensusHistory : List ConsensusRound
  isActive : Bool
  armedTimers : List ArmedTimer
deriving DecidableEq

def PoSAConsensus.validateVoteSignature (vote : ConsensusVote) : Bool :=
  decide (0 < vote.signature.length) && decide (0 < vote.validator.length)

/-- `PoSAConsensus.finalizeRound`: stamp the status and finalization time,
archive the round into the (100-bounded) history and clear the current
round.  The armed timeout timer is NOT cancelled — the source has no
`clearTimeout`. -/
def PoSAConsensus.finalizeRound (status : RoundStatus) (now : Nat) (st : PoSAState) : PoSAState :=
  match st.currentRound with
  | none => st
  | some round =>
    let finalized := { round with status := status, finalizedAt := some now }
    let history := st.consensusHistory ++ [finalized]
    let history := if 100 < history.length then history.drop 1 else history
    { st with currentRound := none, consensusHistory := history }

/-- The approval tally of `checkConsensusStatus`. -/
def countApprove (votes : List ConsensusVote) : Nat :=
  (votes.filter (fun v => v.vote == VoteKind.approve)).length

/-- The rejection tally of `checkConsensusStatus`. -/
def countReject (votes : List ConsensusVote) : Nat :=
  (votes.filter (fun v => v.vote == VoteKind.reject)).length

/-- `PoSAConsensus.checkConsensusStatus`: approve quorum, then reject
quorum, then — once the vote count reaches the validator count — simple
plurality (ties reject). -/
def PoSAConsensus.checkConsensusStatus (config : PoSAConfig) (now : Nat) (st : PoSAState) :
    PoSAState :=
  match st.currentRound with
  | none => st
  | some round =>
    let approvalVotes := countApprove round.votes
    let rejectionVotes := countReject round.votes
    let totalVotes := round.votes.length
    if config.requiredVotes ≤ approvalVotes then
      PoSAConsensus.finalizeRound RoundStatus.approved now st
    else if config.requiredVotes ≤ rejectionVotes then
      PoSAConsensus.finalizeRound RoundStatus.rejected now st
    else if config.validatorCount ≤ totalVotes then
      if rejectionVotes < approvalVotes then
        PoSAConsensus.finalizeRound RoundStatus.approved now st
      else
        PoSAConsensus.finalizeRound RoundStatus.rejected now st
    else st

/-- `PoSAConsensus.handleValidatorVote`: drop the vote when no round is
active, the block hash differs, the validator already voted, or the
signature fails the (simplified) check; otherwise append it and evaluate
the tally. -/
def PoSAConsensus.handleValidatorVote (config : PoSAConfig) (vote : ConsensusVote) (now : Nat)
    (st : PoSAState) : PoSAState :=
  match st.currentRound with
  | none => st
  | some round =>
    if vote.blockHash ≠ round.blockHash then st
    else if (round.votes.find? (fun v => v.validator == vote.validator)).isSome then st
    else if ¬ PoSAConsensus.validateVoteSignature vote then st
    else
      let st := { st with currentRound := some { round with votes := round.votes ++ [vote] } }
      PoSAConsensus.checkConsensusStatus config now st

/-- `PoSAConsensus.proposeBlock`: refuse when inactive or when a round is
already in progress; otherwise open a pending round and arm a timeout
timer for `now + roundTimeout`. -/
def PoSAConsensus.proposeBlock (config : PoSAConfig) (blockHash proposer : String) (now : Nat)
    (st : PoSAState) : Bool × PoSAState :=
  if ¬ st.isActive then (false, st)
  else
    match st.currentRound with
    | some _ => (false, st)
    | none =>
      let round : ConsensusRound :=
        { blockHash := blockHash, proposer := proposer, startTime := now,
          votes := [], status := RoundStatus.pending, finalizedAt := none }
      (true, { st with currentRound := some round,
                       armedTimers := st.armedTimers ++ [⟨blockHash, now + config.roundTimeout⟩] })

/-- `PoSAConsensus.handleRoundTimeout`: a no-op unless some round is
currently pending; otherwise the round is finalized with status
`rejected` — the `timeout` status is never assigned by the source. -/
def PoSAConsensus.handleRoundTimeout (now : Nat) (st : PoSAState) : PoSAState :=
  match st.currentRound with
  | none => st
  | some round =>
    if round.status ≠ RoundStatus.pending then st
    else PoSAConsensus.finalizeRound RoundStatus.rejected now st

/-- The externally visible events of the consensus coordinator.  A
`timerFire` event delivers the armed timer at the given index of
`armedTimers`. -/
inductive PoSAEvent where
  | propose (blockHash proposer : String) (time : Nat)
  | vote (v : ConsensusVote) (time : Nat)
  | timerFire (index : Nat) (time : Nat)
deriving DecidableEq

def PoSAEvent.time : PoSAEvent → Nat
  | .propose _ _ t => t
  | .vote _ t => t
  | .timerFire _ t => t

def PoSAConsensus.step (config : PoSAConfig) (st : PoSAState) : PoSAEvent → PoSAState
  | .propose h p t => (PoSAConsensus.proposeBlock config h p t st).2
  | .vote v t => PoSAConsensus.handleValidatorVote config v t st
  | .timerFire i t =>
    match st.armedTimers[i]? with
    | none => st
    | some _ =>
      let st := { st with armedTimers := st.armedTimers.eraseIdx i }
      PoSAConsensus.handleRoundTimeout t st

def PoSAConsensus.run (config : PoSAConfig) (st : PoSAState) (events : List PoSAEvent) :
    PoSAState :=
  events.foldl (PoSAConsensus.step config) st

/-- A single event is temporally well-formed: time moves forward, no armed
timer is overdue, and a `timerFire` event delivers an armed timer exactly
at its scheduled firing time. -/
def PoSAConsensus.eventOk (st : PoSAState) (prevTime : Nat) (e : PoSAEvent) : Bool :=
  decide (prevTime ≤ e.time) &&
  st.armedTimers.all (fun tm => decide (e.time ≤ tm.fireTime)) &&
  (match e with
   | .timerFire i t =>
     match st.armedTimers[i]? with
     | some tm => tm.fireTime == t
     | none => false
   | _ => true)

/-- An event trace is temporally well-formed for the real `setTimeout`
semantics: every event respects `eventOk` in the state it is applied to. -/
def PoSAConsensus.validRun (config : PoSAConfig) (st : PoSAState) (prevTime : Nat) :
    List PoSAEvent → Bool
  | [] => true
  | e :: es =>
    PoSAConsensus.eventOk st prevTime e &&
      PoSAConsensus.validRun config (PoSAConsensus.step config st e) e.time es

/-! ## Chain (Chain.ts, class Chain) -/

structure Block where
  transactions : List Transaction
deriving DecidableEq

structure Chain where
  blocksByNumber : List (Nat × Block)
  currentHeight : Nat
deriving DecidableEq

inductive ChainError where
  | notSupported
deriving DecidableEq

/-- `Chain.reorg`: the source logs a warning and returns `false` for every
target hash; no error of any kind is signalled to the caller. -/
def Chain.reorg (_targetHash : String) : Except ChainError Bool :=
  Except.ok false

/-- The inner loop of `Chain.getTransactionsByAddress` over one block's
transactions.  The sender comparison short-circuits the `||`; when it
fails, the source reads `tx.to.toLowerCase()` without a null guard, which
throws a `TypeError` on a contract-creation transaction. -/
def Chain.scanTxs (address : String) (limit : Nat) :
    List Transaction → List Transaction → Except String (List Transaction)
  | acc, [] => Except.ok acc
  | acc, tx :: rest =>
    if jsToLower tx.sender == jsToLower address then
      let acc := acc ++ [tx]
      if limit ≤ acc.length then Except.ok acc else Chain.scanTxs address limit acc rest
    else
      match tx.to_ with
      | none => Except.error "TypeError: Cannot read properties of null"
      | some t =>
        if jsToLower t == jsToLower address then
          let acc := acc ++ [tx]
          if limit ≤ acc.length then Except.ok acc else Chain.scanTxs address limit acc rest
        else Chain.scanTxs address limit acc rest

/-- The outer loop of `Chain.getTransactionsByAddress`: heights from
`currentHeight` down to 0, stopping once `limit` results are collected;
missing heights are skipped. -/
def Chain.scanHeights (chain : Chain) (address : String) (limit : Nat) :
    Nat → List Transaction → Except String (List Transaction)
  | i, acc =>
    if limit ≤ acc.length then Except.ok acc
    else
      let blockStep := match jsMapGet chain.blocksByNumber i with
        | none => Except.ok acc
        | some block => Chain.scanTxs address limit acc block.transactions
      match blockStep with
      | Except.error e => Except.error e
      | Except.ok acc' =>
        match i with
        | 0 => Except.ok acc'
        | Nat.succ j => Chain.scanHeights chain address limit j acc'

def Chain.getTransactionsByAddress (chain : Chain) (address : String) (limit : Nat := 50) :
    Except String (List Transaction) :=
  Chain.scanHeights chain address limit chain.currentHeight []

/-! ## Concrete sample inputs for the witnesses and counterexamples -/

/-- A minimal structurally valid transaction (no recipient, zero value). -/
def sampleTx (hash : String) (gasPrice : Int) (nonce : Int := 0)
    (sender : String := "0xsend") (rcpt : Option String := none) : Transaction :=
  { nonce := nonce, gasPrice := gasPrice, gasLimit := 21000, to_ := rcpt, value := 0,
    data := "", v := 27, r := "0x1", s := "0x1", hash := hash, sender := sender }

/-- An account state with one funded sender account. -/
def c1State : StateManager := ⟨[("0xaa", ⟨100, 0⟩)], ""⟩

/-- A contract-creation transaction (no recipient) with a positive value. -/
def c1Tx : Transaction :=
  { nonce := 0, gasPrice := 1, gasLimit := 2, to_ := none, value := 5,
    data := "", v := 27, r := "0x1", s := "0x1", hash := "0xt1", sender := "0xAA" }

/-- A value transfer to a distinct recipient, for the success witness. -/
def c1TransferTx : Transaction :=
  { nonce := 0, gasPrice := 1, gasLimit := 2, to_ := some "0xCC", value := 5,
    data := "", v := 27, r := "0x1", s := "0x1", hash := "0xt2", sender := "0xAA" }

/-- The transaction of `c1Tx` with a mismatching nonce. -/
def c5Tx : Transaction := { c1Tx with nonce := 5, hash := "0xt5" }

/-- A pool at capacity 10 holding gas prices 1 through 10. -/
def c6Pool : TransactionPool :=
  ⟨(List.range 10).map (fun i => ("0xh" ++ toString i, sampleTx ("0xh" ++ toString i) (Int.ofNat i + 1)))⟩

def c6NewTx : Transaction := sampleTx "0xhnew" 11

def tieTxBB : Transaction := sampleTx "0xbb" 1

def tieTxAA : Transaction := sampleTx "0xaa" 1

def tieRest : List (String × Transaction) :=
  (List.range 8).map (fun i => ("0xc" ++ toString (i + 2), sampleTx ("0xc" ++ toString (i + 2)) (Int.ofNat i + 2)))

/-- A pool at capacity 10 whose two cheapest transactions tie on gas price;
the larger hash was inserted first. -/
def tiePoolA : TransactionPool := ⟨("0xbb", tieTxBB) :: ("0xaa", tieTxAA) :: tieRest⟩

/-- The same entry set as `tiePoolA`, with the tied pair inserted in the
opposite order. -/
def tiePoolB : TransactionPool := ⟨("0xaa", tieTxAA) :: ("0xbb", tieTxBB) :: tieRest⟩

def tieNewTx : Transaction := sampleTx "0xnew" 11

/-- A pool holding one transaction sent by `0xaaa` (nonce 0) and one merely
naming `0xaaa` as recipient (nonce 7). -/
def c8Pool : TransactionPool :=
  ⟨[("0xh1", sampleTx "0xh1" 1 0 "0xaaa"),
    ("0xh2", sampleTx "0xh2" 1 7 "0xbbb" (some "0xaaa"))]⟩

/-- Modelled from the spec: `pendingNonce(address)` as the spec words it,
the highest nonce among the pending transactions sent by the address, plus
one (the fold floors the maximum at zero exactly as the implementation
does). -/
def pendingNonceSenderOnlySpec (pool : TransactionPool) (address : String) : Int :=
  (((pool.pendingTransactions.map Prod.snd).filter
      (fun tx => jsToLower tx.sender == jsToLower address)).foldl
    (fun mx tx => if mx < tx.nonce then tx.nonce else mx) 0) + 1

def approveVote (validator hash : String) (t : Nat) : ConsensusVote :=
  ⟨hash, validator, VoteKind.approve, "", t, "sig"⟩

/-- The 6-validator quorum-4 configuration of the spec. -/
def posaConfig : PoSAConfig := ⟨6, 4, 30000, 10000⟩

def c2Round : ConsensusRound :=
  ⟨"0xb", "proposer", 0,
   [approveVote "v1" "0xb" 1000, approveVote "v2" "0xb" 2000, approveVote "v3" "0xb" 3000],
   RoundStatus.pending, none⟩

def c2State : PoSAState := ⟨some c2Round, [], true, [⟨"0xb", 30000⟩]⟩

def c2Vote : ConsensusVote := approveVote "v4" "0xb" 4000

/-- A pending round with two votes — fewer than the quorum of four. -/
def c3Round : ConsensusRound :=
  ⟨"0xb1", "proposer", 0,
   [approveVote "v1" "0xb1" 1000, approveVote "v2" "0xb1" 2000],
   RoundStatus.pending, none⟩

def c3State : PoSAState := ⟨some c3Round, [], true, [⟨"0xb1", 30000⟩]⟩

def c4Init : PoSAState := ⟨none, [], true, []⟩

/-- Round `0xb1` is proposed at time 0 (arming a 30000 ms timer), approved
by quorum at 4000, round `0xb2` is proposed at 10000; at 30000 the timer
armed for `0xb1` fires. -/
def c4Events : List PoSAEvent :=
  [ PoSAEvent.propose "0xb1" "p1" 0,
    PoSAEvent.vote (approveVote "v1" "0xb1" 1000) 1000,
    PoSAEvent.vote (approveVote "v2" "0xb1" 2000) 2000,
    PoSAEvent.vote (approveVote "v3" "0xb1" 3000) 3000,
    PoSAEvent.vote (approveVote "v4" "0xb1" 4000) 4000,
    PoSAEvent.propose "0xb2" "p2" 10000,
    PoSAEvent.timerFire 0 30000 ]

/-- A committed contract-creation transaction (recipient is null). -/
def creationTx : Transaction := sampleTx "0xct" 1 0 "0xbbb" none

/-- A chain whose block at height 1 contains `creationTx`. -/
def c10Chain : Chain := ⟨[(0, ⟨[]⟩), (1, ⟨[creationTx]⟩)], 1⟩

def addrA : String := "0xaaaaaaaaaaaaaaaaaaaaaaaaaaaaaaaaaaaaaaaa"

def addrB : String := "0xbbbbbbbbbbbbbbbbbbbbbbbbbbbbbbbbbbbbbbbb"

def msA : List StateMut := [StateMut.setBalance addrA 5, StateMut.setBalance addrB 7]

def msB : List StateMut := [StateMut.setBalance addrB 7, StateMut.setBalance addrA 5]

/-- A round with its vote list replaced (the state of the current round
right after a vote is appended). -/
def ConsensusRound.withVotes (round : ConsensusRound) (votes : List ConsensusVote) :
    ConsensusRound :=
  { round with votes := votes }

/-- The archived copy of a round produced by `finalizeRound`. -/
def ConsensusRound.finalized (round : ConsensusRound) (votes : List ConsensusVote)
    (status : RoundStatus) (now : Nat) : ConsensusRound :=
  { round with votes := votes, status := status, finalizedAt := some now }

/-! ## Lemmas about the Map embedding -/

theorem jsMapGet_jsMapSet_self {κ α : Type} [DecidableEq κ] (m : List (κ × α)) (k : κ) (v : α) :
    jsMapGet (jsMapSet m k v) k = some v := by
  induction m with
  | nil => simp [jsMapSet, jsMapGet]
  | cons e t ih =>
    obtain ⟨k', v'⟩ := e
    by_cases h : k' = k
    · subst h
      simp [jsMapSet, jsMapGet]
    · simp [jsMapSet, jsMapGet, h, ih]

theorem jsMapGet_jsMapSet_ne {κ α : Type} [DecidableEq κ] (m : List (κ × α)) (k k' : κ) (v : α)
    (h : k ≠ k') : jsMapGet (jsMapSet m k v) k' = jsMapGet m k' := by
  induction m with
  | nil => simp [jsMapSet, jsMapGet, h]
  | cons e t ih =>
    obtain ⟨k₀, v₀⟩ := e
    by_cases h0 : k₀ = k
    · subst h0
      simp [jsMapSet, jsMapGet, h]
    · simp [jsMapSet, jsMapGet, h0, ih]

theorem jsMapSet_keys_of_mem {κ α : Type} [DecidableEq κ] (m : List (κ × α)) (k : κ) (v : α)
    (h : k ∈ m.map Prod.fst) : (jsMapSet m k v).map Prod.fst = m.map Prod.fst := by
  induction m with
  | nil => simp at h
  | cons e t ih =>
    obtain ⟨k₀, v₀⟩ := e
    by_cases h0 : k₀ = k
    · subst h0
      simp [jsMapSet]
    · simp only [List.map_cons, List.mem_cons] at h
      rcases h with h | h
      · exact absurd h.symm h0
      · simp [jsMapSet, h0, ih h]

theorem jsMapSet_keys_of_not_mem {κ α : Type} [DecidableEq κ] (m : List (κ × α)) (k : κ) (v : α)
    (h : k ∉ m.map Prod.fst) : jsMapSet m k v = m ++ [(k, v)] := by
  induction m with
  | nil => simp [jsMapSet]
  | cons e t ih =>
    obtain ⟨k₀, v₀⟩ := e
    simp only [List.map_cons, List.mem_cons, not_or] at h
    have h0 : k₀ ≠ k := fun hh => h.1 hh.symm
    simp [jsMapSet, h0, ih h.2]

theorem jsMapSet_keys_nodup {κ α : Type} [DecidableEq κ] (m : List (κ × α)) (k : κ) (v : α)
    (h : (m.map Prod.fst).Nodup) : ((jsMapSet m k v).map Prod.fst).Nodup := by
  by_cases hk : k ∈ m.map Prod.fst
  · rw [jsMapSet_keys_of_mem m k v hk]
    exact h
  · rw [jsMapSet_keys_of_not_mem m k v hk]
    simp only [List.map_append, List.map_cons, List.map_nil]
    rw [List.nodup_append]
    refine ⟨h, List.nodup_singleton _, ?_⟩
    intro x hx hxk
    simp only [List.mem_singleton] at hxk
    exact hk (hxk ▸ hx)

theorem jsMapGet_eq_none_iff {κ α : Type} [DecidableEq κ] (m : List (κ × α)) (k : κ) :
    jsMapGet m k = none ↔ k ∉ m.map Prod.fst := by
  induction m with
  | nil => simp [jsMapGet]
  | cons e t ih =>
    obtain ⟨k₀, v₀⟩ := e
    by_cases h0 : k₀ = k
    · subst h0
      simp [jsMapGet]
    · simp only [jsMapGet, if_neg h0, List.map_cons, List.mem_cons, not_or]
      constructor
      · intro hn
        exact ⟨fun hh => h0 hh.symm, (ih.mp hn)⟩
      · intro hn
        exact ih.mpr hn.2

theorem jsMapDelete_sublist {κ α : Type} [DecidableEq κ] (m : List (κ × α)) (k : κ) :
    List.Sublist (jsMapDelete m k) m := by
  induction m with
  | nil => simp [jsMapDelete]
  | cons e t ih =>
    obtain ⟨k₀, v₀⟩ := e
    by_cases h0 : k₀ = k
    · simp only [jsMapDelete, if_pos h0]
      exact List.sublist_cons_self _ t
    · simp only [jsMapDelete, if_neg h0]
      exact ih.cons₂ _

/-- An entry of a map with distinct keys can be moved to the front:
deleting its key leaves the remaining entries. -/
theorem perm_cons_jsMapDelete {κ α : Type} [DecidableEq κ] (m : List (κ × α)) (e : κ × α)
    (hmem : e ∈ m) (hnd : (m.map Prod.fst).Nodup) :
    m.Perm (e :: jsMapDelete m e.1) := by
  induction m with
  | nil => simp at hmem
  | cons e₀ t ih =>
    obtain ⟨k₀, v₀⟩ := e₀
    simp only [List.map_cons, List.nodup_cons] at hnd
    by_cases h0 : k₀ = e.1
    · have he : e = (k₀, v₀) := by
        rcases List.mem_cons.mp hmem with h | h
        · exact h
        · exact absurd (h0 ▸ List.mem_map_of_mem Prod.fst h) hnd.1
      subst he
      simp [jsMapDelete]
    · have hne : (k₀, v₀) ≠ e := fun hh => h0 (congrArg Prod.fst hh)
      have hmem' : e ∈ t := by
        rcases List.mem_cons.mp hmem with h | h
        · exact absurd h.symm hne
        · exact h
      simp only [jsMapDelete, if_neg h0]
      exact ((ih hmem' hnd.2).cons (k₀, v₀)).trans (List.Perm.swap e (k₀, v₀) _)

/-- Deleting, key by key, the entries of `ds` from a map `m` whose entries
are (in some order) `ds` followed by `rest` leaves exactly `rest`. -/
theorem foldl_jsMapDelete_perm {κ α : Type} [DecidableEq κ] :
    ∀ (ds m rest : List (κ × α)), (m.map Prod.fst).Nodup → m.Perm (ds ++ rest) →
      (ds.foldl (fun acc e => jsMapDelete acc e.1) m).Perm rest := by
  intro ds
  induction ds with
  | nil =>
    intro m rest _ hp
    simpa using hp
  | cons e ds ih =>
    intro m rest hnd hp
    have hmem : e ∈ m := hp.symm.subset (List.mem_cons_self e (ds ++ rest))
    have hfront := perm_cons_jsMapDelete m e hmem hnd
    have h2 : (jsMapDelete m e.1).Perm (ds ++ rest) :=
      (hfront.symm.trans hp).cons_inv
    have hnd' : ((jsMapDelete m e.1).map Prod.fst).Nodup :=
      ((jsMapDelete_sublist m e.1).map Prod.fst).nodup hnd
    simpa using ih (jsMapDelete m e.1) rest hnd' h2

/-! ## Lemmas about toLowerCase -/

theorem charToLower_toLower (c : Char) : c.toLower.toLower = c.toLower := by
  unfold Char.toLower
  by_cases h : c.toNat ≥ 65 ∧ c.toNat ≤ 90
  · rw [if_pos h]
    have ht : (Char.ofNat (c.toNat + 32)).toNat = c.toNat + 32 := by
      have hv : c.toNat + 32 < 55296 ∨ (57343 < c.toNat + 32 ∧ c.toNat + 32 < 1114112) :=
        Or.inl (by omega)
      simp only [Char.ofNat, Char.toNat, Char.ofNatAux, UInt32.ofNat', UInt32.toNat] at hv ⊢
      rw [dif_pos hv]
      simp [BitVec.toNat_ofNatLt]
    rw [if_neg]
    rw [ht]
    omega
  · rw [if_neg h, if_neg h]

theorem jsToLower_jsToLower (s : String) : jsToLower (jsToLower s) = jsToLower s := by
  simp only [jsToLower]
  rw [List.map_map]
  congr 1
  apply List.map_congr_left
  intro c _
  exact charToLower_toLower c

/-! ## State-root lemmas (claim: order-independent commitment) -/

/-- Sorting by address is strict when the addresses are distinct. -/
theorem sorted_keyLT_insertionSort (l : List (String × AccountState))
    (hnd : (l.map Prod.fst).Nodup) :
    List.Sorted keyLT (List.insertionSort keyLE l) := by
  have hle : List.Sorted keyLE (List.insertionSort keyLE l) :=
    List.sorted_insertionSort keyLE l
  have hnd' : ((List.insertionSort keyLE l).map Prod.fst).Nodup :=
    ((List.perm_insertionSort keyLE l).map Prod.fst).nodup_iff.mpr hnd
  have hne : (List.insertionSort keyLE l).Pairwise (fun a b => a.1 ≠ b.1) :=
    List.pairwise_map.mp hnd'
  exact (hle.and hne).imp (fun h => lt_of_le_of_ne h.1 h.2)

/-- Two account lists with the same entries (and distinct addresses) sort
to the same list, hence serialize and hash to the same state root. -/
theorem computeStateRoot_perm (l₁ l₂ : List (String × AccountState))
    (hnd : (l₁.map Prod.fst).Nodup) (hp : l₁.Perm l₂) :
    computeStateRoot l₁ = computeStateRoot l₂ := by
  have hs : List.insertionSort keyLE l₁ = List.insertionSort keyLE l₂ := by
    apply List.eq_of_perm_of_sorted (r := keyLT)
    · exact (List.perm_insertionSort keyLE l₁).trans
        (hp.trans (List.perm_insertionSort keyLE l₂).symm)
    · exact sorted_keyLT_insertionSort l₁ hnd
    · exact sorted_keyLT_insertionSort l₂ ((hp.map Prod.fst).nodup_iff.mp hnd)
  unfold computeStateRoot
  rw [hs]

/-- The well-formedness invariant of the account store: the cached state
root is the digest of the current accounts, and addresses are distinct (a
JavaScript `Map` cannot hold duplicate keys). -/
def stateWF (st : StateManager) : Prop :=
  st.currentStateRoot = computeStateRoot st.accounts ∧ (st.accounts.map Prod.fst).Nodup

theorem stateWF_updateStateRoot (st : StateManager)
    (h : (st.accounts.map Prod.fst).Nodup) : stateWF st.updateStateRoot :=
  ⟨rfl, h⟩

theorem stateWF_setBalance (st : StateManager) (a : String) (b : Int) (h : stateWF st) :
    stateWF (st.setBalance a b) :=
  stateWF_updateStateRoot _ (jsMapSet_keys_nodup _ _ _ h.2)

theorem stateWF_incrementNonce (st : StateManager) (a : String) (h : stateWF st) :
    stateWF (st.incrementNonce a) :=
  stateWF_updateStateRoot _ (jsMapSet_keys_nodup _ _ _ h.2)

theorem stateWF_transfer (st : StateManager) (f t : String) (amt : Int) (h : stateWF st) :
    stateWF (st.transfer f t amt).2 := by
  cases hg : jsMapGet st.accounts (jsToLower f) with
  | none =>
    simp only [StateManager.transfer, hg]
    exact h
  | some fromAccount =>
    by_cases hlt : fromAccount.balance < amt
    · simp only [StateManager.transfer, hg, if_pos hlt]
      exact h
    · simp only [StateManager.transfer, hg, if_neg hlt]
      exact stateWF_updateStateRoot _ (jsMapSet_keys_nodup _ _ _ (jsMapSet_keys_nodup _ _ _ h.2))

theorem stateWF_processTransaction (st : StateManager) (tx : Transaction) (h : stateWF st) :
    stateWF (st.processTransaction tx).2 := by
  cases hg : jsMapGet st.accounts (jsToLower tx.sender) with
  | none =>
    simp only [StateManager.processTransaction, hg]
    exact h
  | some fromAccount =>
    by_cases hn : fromAccount.nonce ≠ tx.nonce
    · simp only [StateManager.processTransaction, hg, if_pos hn]
      exact h
    · by_cases hb : fromAccount.balance < tx.value + tx.gasPrice * tx.gasLimit
      · simp only [StateManager.processTransaction, hg, if_neg hn, if_pos hb]
        exact h
      · cases htx : tx.to_ with
        | none =>
          simp only [StateManager.processTransaction, hg, if_neg hn, if_neg hb, htx,
            Option.map_none']
          refine stateWF_updateStateRoot _ ?_
          exact jsMapSet_keys_nodup _ _ _ h.2
        | some t =>
          by_cases hc : jsToLower t ≠ "" ∧ 0 < tx.value
          · have hwf' := stateWF_transfer st (jsToLower tx.sender) (jsToLower t) tx.value h
            cases hres : st.transfer (jsToLower tx.sender) (jsToLower t) tx.value with
            | mk ok st' =>
              rw [hres] at hwf'
              cases ok with
              | false =>
                simp only [StateManager.processTransaction, hg, if_neg hn, if_neg hb, htx,
                  Option.map_some', if_pos hc, hres]
                exact hwf'
              | true =>
                simp only [StateManager.processTransaction, hg, if_neg hn, if_neg hb, htx,
                  Option.map_some', if_pos hc, hres]
                refine stateWF_updateStateRoot _ ?_
                exact jsMapSet_keys_nodup _ _ _ hwf'.2
          · simp only [StateManager.processTransaction, hg, if_neg hn, if_neg hb, htx,
              Option.map_some', if_neg hc]
            refine stateWF_updateStateRoot _ ?_
            exact jsMapSet_keys_nodup _ _ _ h.2

theorem stateWF_applyMut (st : StateManager) (m : StateMut) (h : stateWF st) :
    stateWF (applyMut st m) := by
  cases m with
  | setBalance a b => exact stateWF_setBalance st a b h
  | incrementNonce a => exact stateWF_incrementNonce st a h
  | transfer f t amt => exact stateWF_transfer st f t amt h
  | processTransaction tx => exact stateWF_processTransaction st tx h

theorem stateWF_applyMuts (ms : List StateMut) (st : StateManager) (h : stateWF st) :
    stateWF (applyMuts st ms) := by
  induction ms generalizing st with
  | nil => exact h
  | cons m ms ih => exact ih (applyMut st m) (stateWF_applyMut st m h)

theorem stateWF_initialState : stateWF initialState :=
  ⟨rfl, by decide⟩

/-- C7: the state root is a deterministic, insertion-order-independent
commitment over the account set: any two sequences of account mutations
that produce the same address-to-(balance, nonce) mapping (the same set of
account entries) leave an identical state root, because the root is
recomputed after every mutation from the account entries sorted by
address. -/
theorem stateRoot_insertion_order_independent (ms₁ ms₂ : List StateMut)
    (h : (applyMuts initialState ms₁).accounts.Perm (applyMuts initialState ms₂).accounts) :
    (applyMuts initialState ms₁).currentStateRoot
      = (applyMuts initialState ms₂).currentStateRoot := by
  have w₁ := stateWF_applyMuts ms₁ initialState stateWF_initialState
  have w₂ := stateWF_applyMuts ms₂ initialState stateWF_initialState
  rw [w₁.1, w₂.1]
  exact computeStateRoot_perm _ _ w₁.2 h

theorem stateRoot_insertion_order_independent_witness :
    (applyMuts initialState msA).accounts.Perm (applyMuts initialState msB).accounts ∧
    (applyMuts initialState msA).currentStateRoot
      = (applyMuts initialState msB).currentStateRoot :=
  ⟨by decide, stateRoot_insertion_order_independent msA msB (by decide)⟩

/-! ## Applying a transaction (claims on processTransaction) -/

/-- C1 counterexample: for a contract-creation transaction (no recipient)
with positive value, `processTransaction` succeeds but debits the sender
only the gas cost — the value debit is skipped together with the credit,
because the source guards the whole transfer by `to && value > 0`. -/
theorem processTransaction_contract_creation_keeps_value :
    (c1State.processTransaction c1Tx).1 = true ∧
    (c1State.processTransaction c1Tx).2.getBalance "0xaa" = 98 ∧
    ((98 : Int) ≠ 100 - (c1Tx.value + c1Tx.gasPrice * c1Tx.gasLimit)) ∧
    c1Tx.isContractCreation = true := by
  refine ⟨rfl, rfl, by decide, rfl⟩

/-- C1 (amended): for a transaction whose sender account exists with the
matching nonce and a balance of at least `value + gasLimit * gasPrice`
(and well-formed non-negative numeric fields), `processTransaction`
succeeds and increments the sender's nonce by exactly one.  When a
non-empty recipient distinct from the sender is named and `value > 0`,
the sender is debited `value` plus the gas cost, the recipient is
credited `value`, and the combined balance is conserved minus the burned
gas.  Otherwise — no recipient, an empty recipient, a zero value, or a
self-transfer — the value transfer is skipped entirely and the sender is
debited only the gas cost. -/
theorem processTransaction_success_spec (st : StateManager) (tx : Transaction)
    (acct : AccountState)
    (hacct : jsMapGet st.accounts (jsToLower tx.sender) = some acct)
    (hnonce : acct.nonce = tx.nonce)
    (hbal : tx.value + tx.gasPrice * tx.gasLimit ≤ acct.balance)
    (hv : 0 ≤ tx.value) (hg : 0 ≤ tx.gasPrice) (hl : 0 ≤ tx.gasLimit) :
    (st.processTransaction tx).1 = true ∧
    (st.processTransaction tx).2.getNonce tx.sender = tx.nonce + 1 ∧
    (∀ t, tx.to_ = some t → jsToLower t ≠ "" → 0 < tx.value →
        jsToLower t ≠ jsToLower tx.sender →
      (st.processTransaction tx).2.getBalance tx.sender
          = acct.balance - tx.value - tx.gasPrice * tx.gasLimit ∧
      (st.processTransaction tx).2.getBalance t = st.getBalance t + tx.value ∧
      (st.processTransaction tx).2.getBalance tx.sender + (st.processTransaction tx).2.getBalance t
          = st.getBalance tx.sender + st.getBalance t - tx.gasPrice * tx.gasLimit) ∧
    ((tx.to_ = none ∨ tx.to_ = some "" ∨ tx.value = 0 ∨
        (∃ t, tx.to_ = some t ∧ jsToLower t = jsToLower tx.sender)) →
      (st.processTransaction tx).2.getBalance tx.sender
          = acct.balance - tx.gasPrice * tx.gasLimit) := by
  have hne : ¬ acct.nonce ≠ tx.nonce := fun hh => hh hnonce
  have hgas : (0 : Int) ≤ tx.gasPrice * tx.gasLimit := mul_nonneg hg hl
  have hnlt : ¬ acct.balance < tx.value + tx.gasPrice * tx.gasLimit := not_lt.mpr hbal
  have hvle : tx.value ≤ acct.balance := le_trans (le_add_of_nonneg_right hgas) hbal
  have hnvlt : ¬ acct.balance < tx.value := not_lt.mpr hvle
  cases htx : tx.to_ with
  | none =>
    refine ⟨?_, ?_, ?_, ?_⟩
    · simp [StateManager.processTransaction, hacct, if_neg hne, if_neg hnlt, htx]
    · simp [StateManager.processTransaction, StateManager.getNonce, StateManager.updateStateRoot,
        hacct, if_neg hne, if_neg hnlt, htx, jsMapGet_jsMapSet_self, hnonce]
    · intro t ht
      exact absurd ht (by simp)
    · intro _
      simp [StateManager.processTransaction, StateManager.getBalance, StateManager.updateStateRoot,
        hacct, if_neg hne, if_neg hnlt, htx, jsMapGet_jsMapSet_self]
  | some t0 =>
    by_cases hc : jsToLower t0 ≠ "" ∧ 0 < tx.value
    · by_cases hself : jsToLower t0 = jsToLower tx.sender
      · -- self transfer: value leaves and returns, only gas is burned
        have hc' : jsToLower tx.sender ≠ "" ∧ 0 < tx.value := hself ▸ hc
        refine ⟨?_, ?_, ?_, ?_⟩
        · simp [StateManager.processTransaction, StateManager.transfer, hacct, if_neg hne,
            if_neg hnlt, htx, if_pos hc, jsToLower_jsToLower, hself, hc'.1, hc'.2,
            if_neg hnvlt, jsMapGet_jsMapSet_self]
        · simp [StateManager.processTransaction, StateManager.transfer, StateManager.getNonce,
            StateManager.updateStateRoot, hacct, if_neg hne, if_neg hnlt, htx, if_pos hc,
            jsToLower_jsToLower, hself, hc'.1, hc'.2, if_neg hnvlt, jsMapGet_jsMapSet_self, hnonce]
        · intro t ht h1 h2 hdist
          cases ht
          exact absurd hself hdist
        · intro _
          simp [StateManager.processTransaction, StateManager.transfer, StateManager.getBalance,
            StateManager.updateStateRoot, hacct, if_neg hne, if_neg hnlt, htx, if_pos hc,
            jsToLower_jsToLower, hself, hc'.1, hc'.2, if_neg hnvlt, jsMapGet_jsMapSet_self]
      · -- distinct recipient: full transfer
        have hd1 : jsToLower tx.sender ≠ jsToLower t0 := Ne.symm hself
        refine ⟨?_, ?_, ?_, ?_⟩
        · simp [StateManager.processTransaction, StateManager.transfer, hacct, if_neg hne,
            if_neg hnlt, htx, if_pos hc, jsToLower_jsToLower, if_neg hnvlt,
            jsMapGet_jsMapSet_self, jsMapGet_jsMapSet_ne _ _ _ _ hd1,
            jsMapGet_jsMapSet_ne _ _ _ _ hself]
        · simp [StateManager.processTransaction, StateManager.transfer, StateManager.getNonce,
            StateManager.updateStateRoot, hacct, if_neg hne, if_neg hnlt, htx, if_pos hc,
            jsToLower_jsToLower, if_neg hnvlt, jsMapGet_jsMapSet_self,
            jsMapGet_jsMapSet_ne _ _ _ _ hd1, jsMapGet_jsMapSet_ne _ _ _ _ hself, hnonce]
        · intro t ht h1 h2 hdist
          cases ht
          refine ⟨?_, ?_, ?_⟩
          · simp [StateManager.processTransaction, StateManager.transfer, StateManager.getBalance,
              StateManager.updateStateRoot, hacct, if_neg hne, if_neg hnlt, htx, if_pos hc,
              jsToLower_jsToLower, if_neg hnvlt, jsMapGet_jsMapSet_self,
              jsMapGet_jsMapSet_ne _ _ _ _ hd1, jsMapGet_jsMapSet_ne _ _ _ _ hself]
          · simp only [StateManager.processTransaction, StateManager.transfer,
              StateManager.getBalance, StateManager.updateStateRoot, hacct, if_neg hne,
              if_neg hnlt, htx, Option.map_some', if_pos hc, jsToLower_jsToLower,
              if_neg hnvlt, Option.getD_some, jsMapGet_jsMapSet_self,
              jsMapGet_jsMapSet_ne _ _ _ _ hd1, jsMapGet_jsMapSet_ne _ _ _ _ hself]
            cases hrec : jsMapGet st.accounts (jsToLower t0) <;>
              simp [hrec, Option.getD_none, Option.getD_some]
          · simp only [StateManager.processTransaction, StateManager.transfer,
              StateManager.getBalance, StateManager.updateStateRoot, hacct, if_neg hne,
              if_neg hnlt, htx, Option.map_some', if_pos hc, jsToLower_jsToLower,
              if_neg hnvlt, Option.getD_some, jsMapGet_jsMapSet_self,
              jsMapGet_jsMapSet_ne _ _ _ _ hd1, jsMapGet_jsMapSet_ne _ _ _ _ hself]
            cases hrec : jsMapGet st.accounts (jsToLower t0) <;>
              simp [hrec, Option.getD_none, Option.getD_some] <;> omega
        · intro hdisj
          rcases hdisj with h | h | h | ⟨t, ht, hlow⟩
          · cases h
          · cases h
            exact absurd (by decide : jsToLower "" = "") hc.1
          · exact absurd h (by omega : ¬ tx.value = 0)
          · cases ht
            exact absurd hlow hself
    · -- transfer skipped: empty recipient or non-positive value
      refine ⟨?_, ?_, ?_, ?_⟩
      · simp [StateManager.processTransaction, hacct, if_neg hne, if_neg hnlt, htx, if_neg hc]
      · simp [StateManager.processTransaction, StateManager.getNonce, StateManager.updateStateRoot,
          hacct, if_neg hne, if_neg hnlt, htx, if_neg hc, jsMapGet_jsMapSet_self, hnonce]
      · intro t ht h1 h2 hdist
        cases ht
        exact absurd ⟨h1, h2⟩ hc
      · intro _
        simp [StateManager.processTransaction, StateManager.getBalance, StateManager.updateStateRoot,
          hacct, if_neg hne, if_neg hnlt, htx, if_neg hc, jsMapGet_jsMapSet_self]

theorem processTransaction_success_spec_witness :
    (jsMapGet c1State.accounts (jsToLower c1TransferTx.sender) = some ⟨100, 0⟩) ∧
    (c1State.processTransaction c1TransferTx).1 = true ∧
    (c1State.processTransaction c1TransferTx).2.getNonce c1TransferTx.sender
        = c1TransferTx.nonce + 1 ∧
    (c1State.processTransaction c1TransferTx).2.getBalance c1TransferTx.sender
        = 100 - c1TransferTx.value - c1TransferTx.gasPrice * c1TransferTx.gasLimit ∧
    (c1State.processTransaction c1TransferTx).2.getBalance "0xCC"
        = c1State.getBalance "0xCC" + c1TransferTx.value := by
  have H := processTransaction_success_spec c1State c1TransferTx ⟨100, 0⟩ (by decide) (by decide)
    (by decide) (by decide) (by decide) (by decide)
  exact ⟨by decide, H.1, H.2.1,
    (H.2.2.1 "0xCC" rfl (by decide) (by decide) (by decide)).1,
    (H.2.2.1 "0xCC" rfl (by decide) (by decide) (by decide)).2.1⟩

/-- C5: applying a transaction is all-or-nothing.  Whenever the sender
account is unknown, the stored nonce differs from the transaction's, or
the balance is below `value + gasPrice * gasLimit`, `processTransaction`
returns `false` and the state — accounts, nonces and cached state root —
is returned unchanged.  A nonce mismatch rejects regardless of the
balance (the nonce check runs first), and a correct nonce with an
insufficient balance rejects as well. -/
theorem processTransaction_rejection_atomic (st : StateManager) (tx : Transaction)
    (h : jsMapGet st.accounts (jsToLower tx.sender) = none ∨
      ∃ acct, jsMapGet st.accounts (jsToLower tx.sender) = some acct ∧
        (acct.nonce ≠ tx.nonce ∨ acct.balance < tx.value + tx.gasPrice * tx.gasLimit)) :
    st.processTransaction tx = (false, st) := by
  rcases h with h | ⟨acct, hacct, hrej⟩
  · simp [StateManager.processTransaction, h]
  · rcases hrej with hn | hb
    · simp [StateManager.processTransaction, hacct, if_pos hn]
    · by_cases hn : acct.nonce ≠ tx.nonce
      · simp [StateManager.processTransaction, hacct, if_pos hn]
      · simp [StateManager.processTransaction, hacct, if_neg hn, if_pos hb]

theorem processTransaction_rejection_atomic_witness :
    (jsMapGet c1State.accounts (jsToLower c5Tx.sender) = some ⟨100, 0⟩ ∧
      (⟨100, 0⟩ : AccountState).nonce ≠ c5Tx.nonce) ∧
    c1State.processTransaction c5Tx = (false, c1State) :=
  ⟨⟨by decide, by decide⟩,
    processTransaction_rejection_atomic c1State c5Tx
      (Or.inr ⟨⟨100, 0⟩, by decide, Or.inl (by decide)⟩)⟩

/-! ## Consensus tally (claims on the PoSA round state machine) -/

/-- The last archived round of the (100-bounded) history produced by
`finalizeRound` is the round just finalized. -/
theorem getLast?_boundedHistory (l : List ConsensusRound) (a : ConsensusRound) :
    (if 100 < l.length + 1 then (l ++ [a]).tail else l ++ [a]).getLast? = some a := by
  split
  · next h =>
    cases l with
    | nil => simp at h
    | cons x xs =>
      simp only [List.cons_append, List.tail_cons]
      exact List.getLast?_concat _
  · exact List.getLast?_concat _

/-- C2: the tally rule evaluated after every accepted vote.  Let `A` and
`R` be the approve and reject counts including the new vote, `Q` the
configured quorum and `N` the validator count.  If `A ≥ Q` the round is
finalized `approved`; else if `R ≥ Q` it is finalized `rejected`; else if
the vote count has reached `N` it resolves by simple plurality (`A > R`
approved, otherwise rejected); else the round stays pending with the vote
appended. -/
theorem handleValidatorVote_tally (config : PoSAConfig) (st : PoSAState)
    (round : ConsensusRound) (v : ConsensusVote) (now : Nat)
    (hr : st.currentRound = some round)
    (hmatch : v.blockHash = round.blockHash)
    (hnew : ∀ w ∈ round.votes, w.validator ≠ v.validator)
    (hsig : PoSAConsensus.validateVoteSignature v = true) :
    (config.requiredVotes ≤ countApprove (round.votes ++ [v]) →
      (PoSAConsensus.handleValidatorVote config v now st).currentRound = none ∧
      (PoSAConsensus.handleValidatorVote config v now st).consensusHistory.getLast?
        = some (round.finalized (round.votes ++ [v]) RoundStatus.approved now)) ∧
    (countApprove (round.votes ++ [v]) < config.requiredVotes →
     config.requiredVotes ≤ countReject (round.votes ++ [v]) →
      (PoSAConsensus.handleValidatorVote config v now st).currentRound = none ∧
      (PoSAConsensus.handleValidatorVote config v now st).consensusHistory.getLast?
        = some (round.finalized (round.votes ++ [v]) RoundStatus.rejected now)) ∧
    (countApprove (round.votes ++ [v]) < config.requiredVotes →
     countReject (round.votes ++ [v]) < config.requiredVotes →
     config.validatorCount ≤ (round.votes ++ [v]).length →
      ((countReject (round.votes ++ [v]) < countApprove (round.votes ++ [v]) →
        (PoSAConsensus.handleValidatorVote config v now st).consensusHistory.getLast?
          = some (round.finalized (round.votes ++ [v]) RoundStatus.approved now)) ∧
       (countApprove (round.votes ++ [v]) ≤ countReject (round.votes ++ [v]) →
        (PoSAConsensus.handleValidatorVote config v now st).consensusHistory.getLast?
          = some (round.finalized (round.votes ++ [v]) RoundStatus.rejected now)))) ∧
    (countApprove (round.votes ++ [v]) < config.requiredVotes →
     countReject (round.votes ++ [v]) < config.requiredVotes →
     (round.votes ++ [v]).length < config.validatorCount →
      (PoSAConsensus.handleValidatorVote config v now st).currentRound
        = some (round.withVotes (round.votes ++ [v])) ∧
      (PoSAConsensus.handleValidatorVote config v now st).consensusHistory
        = st.consensusHistory) := by
  have hfind : round.votes.find? (fun w => w.validator == v.validator) = none :=
    List.find?_eq_none.mpr (fun w hw => by simpa using hnew w hw)
  have hstep : PoSAConsensus.handleValidatorVote config v now st
      = PoSAConsensus.checkConsensusStatus config now
          { st with currentRound := some { round with votes := round.votes ++ [v] } } := by
    simp [PoSAConsensus.handleValidatorVote, hr, hmatch, hfind, hsig]
  refine ⟨?_, ?_, ?_, ?_⟩
  · intro hA
    rw [hstep]
    simp [PoSAConsensus.checkConsensusStatus, PoSAConsensus.finalizeRound, hA,
      getLast?_boundedHistory, ConsensusRound.finalized, ConsensusRound.withVotes]
  · intro hA hR
    rw [hstep]
    simp [PoSAConsensus.checkConsensusStatus, PoSAConsensus.finalizeRound,
      not_le.mpr hA, hR, getLast?_boundedHistory, ConsensusRound.finalized,
      ConsensusRound.withVotes]
  · intro hA hR hT
    rw [hstep]
    have hT' : config.validatorCount ≤ round.votes.length + 1 := by simpa using hT
    constructor
    · intro hAR
      simp [PoSAConsensus.checkConsensusStatus, PoSAConsensus.finalizeRound,
        not_le.mpr hA, not_le.mpr hR, hT', hAR, getLast?_boundedHistory,
        ConsensusRound.finalized, ConsensusRound.withVotes]
    · intro hAR
      simp [PoSAConsensus.checkConsensusStatus, PoSAConsensus.finalizeRound,
        not_le.mpr hA, not_le.mpr hR, hT', not_lt.mpr hAR, getLast?_boundedHistory,
        ConsensusRound.finalized, ConsensusRound.withVotes]
  · intro hA hR hT
    rw [hstep]
    have hT' : ¬ config.validatorCount ≤ round.votes.length + 1 := by
      simpa using not_le.mpr hT
    simp [PoSAConsensus.checkConsensusStatus, PoSAConsensus.finalizeRound,
      not_le.mpr hA, not_le.mpr hR, hT', ConsensusRound.withVotes]

theorem handleValidatorVote_tally_witness :
    (c2State.currentRound = some c2Round ∧
     c2Vote.blockHash = c2Round.blockHash ∧
     (∀ w ∈ c2Round.votes, w.validator ≠ c2Vote.validator) ∧
     PoSAConsensus.validateVoteSignature c2Vote = true ∧
     posaConfig.requiredVotes ≤ countApprove (c2Round.votes ++ [c2Vote])) ∧
    (PoSAConsensus.handleValidatorVote posaConfig c2Vote 4000 c2State).currentRound = none ∧
    (PoSAConsensus.handleValidatorVote posaConfig c2Vote 4000 c2State).consensusHistory.getLast?
      = some (c2Round.finalized (c2Round.votes ++ [c2Vote]) RoundStatus.approved 4000) := by
  refine ⟨⟨rfl, rfl, by decide, rfl, by decide⟩, ?_⟩
  exact (handleValidatorVote_tally posaConfig c2State c2Round c2Vote 4000 rfl rfl
    (by decide) rfl).1 (by decide)

/-- C3: a pending round with fewer than quorum votes whose timeout timer
fires is finalized with status `rejected`, not with the declared (but
never assigned) `timeout` status; the consensus module never touches the
transaction pool, so the pool keeps the block's transactions. -/
theorem handleRoundTimeout_finalizes_rejected :
    countApprove c3Round.votes < posaConfig.requiredVotes ∧
    c3Round.status = RoundStatus.pending ∧
    (PoSAConsensus.handleRoundTimeout 30000 c3State).consensusHistory.getLast?
      = some (c3Round.finalized c3Round.votes RoundStatus.rejected 30000) ∧
    (PoSAConsensus.handleRoundTimeout 30000 c3State).currentRound = none ∧
    RoundStatus.rejected ≠ RoundStatus.timeout := by
  refine ⟨by decide, rfl, by decide, rfl, by decide⟩

/-- C4: the round timeout timer is never cancelled.  In the concrete
temporally valid trace `c4Events`, round `0xb1` is proposed (arming a
timer), approved by quorum, and round `0xb2` is proposed; when the timer
armed for `0xb1` fires, it rejects the pending round `0xb2` — a round it
was never started for. -/
theorem stale_timer_rejects_later_round :
    PoSAConsensus.validRun posaConfig c4Init 0 c4Events = true ∧
    (PoSAConsensus.run posaConfig c4Init (c4Events.take 6)).armedTimers
      = [⟨"0xb1", 30000⟩, ⟨"0xb2", 40000⟩] ∧
    (PoSAConsensus.run posaConfig c4Init (c4Events.take 6)).armedTimers[0]?
      = some ⟨"0xb1", 30000⟩ ∧
    ((PoSAConsensus.run posaConfig c4Init (c4Events.take 6)).consensusHistory.map
        (fun r => (r.blockHash, r.status))) = [("0xb1", RoundStatus.approved)] ∧
    (PoSAConsensus.run posaConfig c4Init (c4Events.take 6)).currentRound
      = some ⟨"0xb2", "p2", 10000, [], RoundStatus.pending, none⟩ ∧
    (PoSAConsensus.run posaConfig c4Init c4Events).consensusHistory.getLast?
      = some ⟨"0xb2", "p2", 10000, [], RoundStatus.rejected, some 30000⟩ ∧
    ("0xb1" : String) ≠ "0xb2" := by
  refine ⟨by decide, by decide, by decide, by decide, by decide, by decide, by decide⟩

/-! ## Transaction pool (claims on admission, eviction and pending nonces) -/

/-- The record fold of `evictLowestFeeTransactions` as a fold on the
underlying entry list. -/
theorem evictLowestFeeTransactions_eq (pool : TransactionPool) :
    pool.evictLowestFeeTransactions.pendingTransactions
      = ((List.insertionSort feeLE pool.pendingTransactions).take
          (pool.pendingTransactions.length / 10)).foldl
            (fun m e => jsMapDelete m e.1) pool.pendingTransactions := by
  have hfold : ∀ (ds : List (String × Transaction)) (p : TransactionPool),
      (ds.foldl (fun p e =>
          { pendingTransactions := jsMapDelete p.pendingTransactions e.1 }) p).pendingTransactions
        = ds.foldl (fun m e => jsMapDelete m e.1) p.pendingTransactions := by
    intro ds
    induction ds with
    | nil => intro p; rfl
    | cons e ds ih =>
      intro p
      simp only [List.foldl_cons]
      exact ih _
  exact hfold _ pool

/-- C6 (amended): admitting a transaction into a pool at its capacity
(with at least 10 entries, a well-formed key set, a valid transaction and
a fresh hash) evicts the first ⌊N/10⌋ entries of the stable
ascending-by-gas-price ordering — the lowest-priced entries, ties broken
by insertion order — admits the new transaction, and leaves the pool
within the bound. -/
theorem addTransaction_eviction_spec (maxPoolSize : Nat) (pool : TransactionPool)
    (tx : Transaction)
    (hmax : 10 ≤ maxPoolSize)
    (hsize : pool.pendingTransactions.length = maxPoolSize)
    (hnd : (pool.pendingTransactions.map Prod.fst).Nodup)
    (hvalid : tx.validate = true)
    (hnew : jsMapGet pool.pendingTransactions tx.hash = none) :
    (TransactionPool.addTransactionWithMax maxPoolSize pool tx).1 = true ∧
    (TransactionPool.addTransactionWithMax maxPoolSize pool tx).2.pendingTransactions.Perm
      (((List.insertionSort feeLE pool.pendingTransactions).drop (maxPoolSize / 10))
        ++ [(tx.hash, tx)]) ∧
    (TransactionPool.addTransactionWithMax maxPoolSize pool tx).2.pendingTransactions.length
      = maxPoolSize - maxPoolSize / 10 + 1 ∧
    (TransactionPool.addTransactionWithMax maxPoolSize pool tx).2.pendingTransactions.length
      ≤ maxPoolSize ∧
    jsMapGet (TransactionPool.addTransactionWithMax maxPoolSize pool tx).2.pendingTransactions
      tx.hash = some tx ∧
    (∀ ev ∈ (List.insertionSort feeLE pool.pendingTransactions).take (maxPoolSize / 10),
     ∀ kept ∈ (List.insertionSort feeLE pool.pendingTransactions).drop (maxPoolSize / 10),
      ev.2.gasPrice ≤ kept.2.gasPrice) := by
  have hsz : maxPoolSize ≤ pool.pendingTransactions.length := le_of_eq hsize.symm
  have hrun : TransactionPool.addTransactionWithMax maxPoolSize pool tx
      = (true, { pendingTransactions :=
          jsMapSet pool.evictLowestFeeTransactions.pendingTransactions tx.hash tx }) := by
    simp [TransactionPool.addTransactionWithMax, hvalid, hnew, if_pos hsz]
  have hperm0 : pool.pendingTransactions.Perm
      ((List.insertionSort feeLE pool.pendingTransactions).take (maxPoolSize / 10)
        ++ (List.insertionSort feeLE pool.pendingTransactions).drop (maxPoolSize / 10)) := by
    rw [List.take_append_drop]
    exact (List.perm_insertionSort feeLE _).symm
  have hev : pool.evictLowestFeeTransactions.pendingTransactions.Perm
      ((List.insertionSort feeLE pool.pendingTransactions).drop (maxPoolSize / 10)) := by
    rw [evictLowestFeeTransactions_eq, hsize]
    exact foldl_jsMapDelete_perm _ _ _ hnd hperm0
  have hkey : tx.hash ∉ pool.evictLowestFeeTransactions.pendingTransactions.map Prod.fst := by
    intro hmem
    have h1 := (hev.map Prod.fst).subset hmem
    have h2 : tx.hash ∈ (List.insertionSort feeLE pool.pendingTransactions).map Prod.fst :=
      (((List.drop_sublist _ _).map Prod.fst).subset) h1
    have h3 : tx.hash ∈ pool.pendingTransactions.map Prod.fst :=
      (((List.perm_insertionSort feeLE _).map Prod.fst).subset) h2
    exact (jsMapGet_eq_none_iff _ _).mp hnew h3
  have happend : jsMapSet pool.evictLowestFeeTransactions.pendingTransactions tx.hash tx
      = pool.evictLowestFeeTransactions.pendingTransactions ++ [(tx.hash, tx)] :=
    jsMapSet_keys_of_not_mem _ _ _ hkey
  have hperm : (TransactionPool.addTransactionWithMax maxPoolSize pool tx).2.pendingTransactions.Perm
      (((List.insertionSort feeLE pool.pendingTransactions).drop (maxPoolSize / 10))
        ++ [(tx.hash, tx)]) := by
    rw [hrun]
    simpa [happend] using hev.append_right [(tx.hash, tx)]
  have hsortlen : (List.insertionSort feeLE pool.pendingTransactions).length = maxPoolSize := by
    rw [(List.perm_insertionSort feeLE _).length_eq, hsize]
  have hrc1 : 1 ≤ maxPoolSize / 10 := (Nat.one_le_div_iff (by norm_num)).mpr hmax
  have hrcle : maxPoolSize / 10 ≤ maxPoolSize := Nat.div_le_self _ _
  have hlen : (TransactionPool.addTransactionWithMax maxPoolSize pool tx).2.pendingTransactions.length
      = maxPoolSize - maxPoolSize / 10 + 1 := by
    rw [hperm.length_eq]
    simp [List.length_drop, hsortlen]
  refine ⟨by rw [hrun], hperm, hlen, ?_, ?_, ?_⟩
  · rw [hlen]
    omega
  · rw [hrun]
    exact jsMapGet_jsMapSet_self _ _ _
  · have hsorted : List.Sorted feeLE (List.insertionSort feeLE pool.pendingTransactions) :=
      List.sorted_insertionSort feeLE _
    rw [← List.take_append_drop (maxPoolSize / 10)
      (List.insertionSort feeLE pool.pendingTransactions)] at hsorted
    exact fun ev hevm kept hkm => (List.pairwise_append.mp hsorted).2.2 ev hevm kept hkm

theorem addTransaction_eviction_spec_witness :
    (c6Pool.pendingTransactions.length = 10 ∧
     (c6Pool.pendingTransactions.map Prod.fst).Nodup ∧
     c6NewTx.validate = true ∧
     jsMapGet c6Pool.pendingTransactions c6NewTx.hash = none) ∧
    ((TransactionPool.addTransactionWithMax 10 c6Pool c6NewTx).1 = true ∧
     (TransactionPool.addTransactionWithMax 10 c6Pool c6NewTx).2.pendingTransactions.length ≤ 10 ∧
     jsMapGet (TransactionPool.addTransactionWithMax 10 c6Pool c6NewTx).2.pendingTransactions
       c6NewTx.hash = some c6NewTx) := by
  have H := addTransaction_eviction_spec 10 c6Pool c6NewTx (by decide) (by decide) (by decide)
    (by decide) (by decide)
  exact ⟨⟨by decide, by decide, by decide, by decide⟩, H.1, H.2.2.2.1, H.2.2.2.2.1⟩

/-- C6 counterexample: the eviction is not determined by the entry set and
does not break gas-price ties by transaction hash.  `tiePoolA` and
`tiePoolB` hold the same transactions; only the insertion order of the
two tied cheapest entries differs.  Admitting the same new transaction
evicts hash `0xbb` from one pool and hash `0xaa` from the other — the
code evicts the earlier-inserted of the tied pair (stable sort), even
though `0xaa` is the smaller hash. -/
theorem eviction_not_determined_by_input_set :
    tiePoolA.pendingTransactions.Perm tiePoolB.pendingTransactions ∧
    (TransactionPool.addTransactionWithMax 10 tiePoolA tieNewTx).2.pendingTransactions.map Prod.fst
      ≠ (TransactionPool.addTransactionWithMax 10 tiePoolB tieNewTx).2.pendingTransactions.map
          Prod.fst ∧
    jsMapGet (TransactionPool.addTransactionWithMax 10 tiePoolA tieNewTx).2.pendingTransactions
      "0xbb" = none ∧
    jsMapGet (TransactionPool.addTransactionWithMax 10 tiePoolA tieNewTx).2.pendingTransactions
      "0xaa" = some tieTxAA := by
  refine ⟨by decide, by decide, by decide, by decide⟩

/-- The fold used by `getPendingNonce` computes a running maximum. -/
theorem foldl_nonce_max (l : List Transaction) (i : Int) :
    l.foldl (fun mx tx => if mx < tx.nonce then tx.nonce else mx) i
      = (l.map Transaction.nonce).foldl max i := by
  induction l generalizing i with
  | nil => rfl
  | cons t ts ih =>
    simp only [List.foldl_cons, List.map_cons]
    rw [ih]
    congr 1
    by_cases h : i < t.nonce
    · rw [if_pos h, max_eq_right h.le]
    · rw [if_neg h, max_eq_left (not_lt.mp h)]

/-- C8 (amended): for an address with at least one pending transaction
sent by it, `pendingNonce` is one plus the maximum (floored at zero) of
the nonces of the pending transactions that name the address as sender
OR as (non-empty) recipient — recipient-only transactions do contribute
to the maximum. -/
theorem getPendingNonce_spec (pool : TransactionPool) (address : String)
    (h : ∃ e ∈ pool.pendingTransactions, jsToLower e.2.sender = jsToLower address) :
    pool.getPendingNonce address
      = ((pool.getTransactionsByAddress address).map Transaction.nonce).foldl max 0 + 1 := by
  have hne : pool.getTransactionsByAddress address ≠ [] := by
    obtain ⟨e, hmem, hs⟩ := h
    intro hnil
    have hin : e.2 ∈ pool.getTransactionsByAddress address := by
      unfold TransactionPool.getTransactionsByAddress
      exact List.mem_map_of_mem _ (List.mem_filter.mpr ⟨hmem, by simp [hs]⟩)
    rw [hnil] at hin
    simp at hin
  have hlen : ¬ (pool.getTransactionsByAddress address).length = 0 := by
    simpa [List.length_eq_zero] using hne
  unfold TransactionPool.getPendingNonce
  rw [if_neg hlen, foldl_nonce_max]

theorem getPendingNonce_spec_witness :
    (("0xh1", sampleTx "0xh1" 1 0 "0xaaa") ∈ c8Pool.pendingTransactions ∧
      jsToLower (sampleTx "0xh1" 1 0 "0xaaa").sender = jsToLower "0xaaa") ∧
    c8Pool.getPendingNonce "0xaaa"
      = ((c8Pool.getTransactionsByAddress "0xaaa").map Transaction.nonce).foldl max 0 + 1 :=
  ⟨⟨by decide, by decide⟩,
    getPendingNonce_spec c8Pool "0xaaa"
      ⟨("0xh1", sampleTx "0xh1" 1 0 "0xaaa"), by decide, by decide⟩⟩

/-- C8 counterexample: in `c8Pool` the only transaction sent by `0xaaa`
has nonce 0, so the claim's value would be 1; but a pending transaction
that merely names `0xaaa` as recipient carries nonce 7, and the code
returns 8. -/
theorem getPendingNonce_counts_recipient :
    c8Pool.getPendingNonce "0xaaa" = 8 ∧
    pendingNonceSenderOnlySpec c8Pool "0xaaa" = 1 ∧
    c8Pool.getPendingNonce "0xaaa" ≠ pendingNonceSenderOnlySpec c8Pool "0xaaa" := by
  refine ⟨by decide, by decide, by decide⟩

/-! ## Chain queries (reorg and transactions-by-address) -/

/-- C9: `Chain.reorg` reports an ordinary failure (`false`) for every
target hash; it never signals a `NotSupported` error to the caller. -/
theorem reorg_returns_ordinary_false :
    Chain.reorg "0xabc" = Except.ok false ∧
    Chain.reorg "0xabc" ≠ Except.error ChainError.notSupported :=
  ⟨rfl, fun h => Except.noConfusion h⟩

/-- C10: `Chain.getTransactionsByAddress` is not total: on a chain whose
committed block holds a contract-creation transaction (null recipient)
from a different sender, the unguarded `tx.to.toLowerCase()` throws a
`TypeError` instead of returning a list.  (The pool's sibling query
guards the recipient with `tx.to &&`; the chain version does not.) -/
theorem getTransactionsByAddress_throws_on_contract_creation :
    creationTx.isContractCreation = true ∧
    c10Chain.getTransactionsByAddress "0xaaa" 50
      = Except.error "TypeError: Cannot read properties of null" :=
  ⟨rfl, rfl⟩
